import Mathlib

/-!
Verification of `generate_config.py` (Skland-Sign-In).

The script reads three environment variables, merges the accounts they
describe, deduplicates them by token, synthesizes nicknames where absent,
sorts by nickname and emits a YAML config.  We embed the pure content of
the script: JSON values as an inductive type, the merge loop as explicit
state passing, each `sys.exit(1)` path as an `Except` error carrying the
printed diagnostic, and `accounts.sort(key=...)` as a stable insertion
sort (Python's `list.sort` is stable, and the stable sorted permutation
for a fixed key order is unique).
-/

namespace Skland

mutual

/-- JSON values as produced by Python's `json.loads`.  Object fields are
the resulting dict's entries in order; `json.loads` returns dicts, whose
keys are distinct, and the script only uses key lookup and key count. -/
inductive Json where
  | str (s : String)
  | num (n : Int)
  | bool (b : Bool)
  | null
  | arr (items : JsonList)
  | obj (fields : JsonFields)
deriving Repr, DecidableEq

/-- A list of JSON values (the payload of `Json.arr`). -/
inductive JsonList where
  | nil
  | cons (hd : Json) (tl : JsonList)
deriving Repr, DecidableEq

/-- The fields of a JSON object: key/value pairs in order. -/
inductive JsonFields where
  | nil
  | cons (key : String) (val : Json) (tl : JsonFields)
deriving Repr, DecidableEq

end

/-- View a `JsonList` as an ordinary `List`. -/
def JsonList.toList : JsonList → List Json
  | .nil => []
  | .cons hd tl => hd :: tl.toList

/-- Build a `JsonList` from an ordinary `List`. -/
def JsonList.ofList : List Json → JsonList
  | [] => .nil
  | hd :: tl => .cons hd (ofList tl)

/-- View the fields of an object as an ordinary association list. -/
def JsonFields.toList : JsonFields → List (String × Json)
  | .nil => []
  | .cons k v tl => (k, v) :: tl.toList

/-- Build object fields from an ordinary association list. -/
def JsonFields.ofList : List (String × Json) → JsonFields
  | [] => .nil
  | (k, v) :: tl => .cons k v (ofList tl)

/-- Python truthiness of a parsed JSON value (`if token:`, `if raw_nickname:`):
empty strings, zero, `False`, `None`, empty arrays and empty objects are
falsy, everything else truthy. -/
def Json.truthy : Json → Bool
  | .str s => !s.data.isEmpty
  | .num n => n != 0
  | .bool b => b
  | .null => false
  | .arr items => !items.toList.isEmpty
  | .obj fields => !fields.toList.isEmpty

/-- Python `s.endswith(suffix)`, on the character sequences. -/
def pyEndsWith (s suffix : String) : Bool :=
  suffix.data.isSuffixOf s.data

/-- Python `s[:-n]` for `0 < n ≤ len(s)` (and `''` when `n ≥ len(s)`):
all but the last `n` characters. -/
def pyDropRight (s : String) (n : Nat) : String :=
  ⟨s.data.take (s.data.length - n)⟩

/-- The characters Python's `str.strip()` removes.  (Python also strips a
few rare Unicode space characters; they never occur here.) -/
def pySpace (c : Char) : Bool :=
  c == ' ' || c == '\t' || c == '\n' || c == '\r' || c == '\x0b' || c == '\x0c'

/-- Python `s.strip()`: leading and trailing whitespace removed. -/
def pyStrip (s : String) : String :=
  ⟨((s.data.dropWhile pySpace).reverse.dropWhile pySpace).reverse⟩

/-- MARKER = "_END" (line 8). -/
def MARKER : String := "_END"

/-- remove_marker (lines 10-14): strip one trailing MARKER if the string is
truthy (non-empty) and ends with it; `secret_value[:-len(MARKER)]` drops the
last `len(MARKER)` characters. -/
def remove_marker (secret_value : String) : String :=
  if !secret_value.data.isEmpty && pyEndsWith secret_value MARKER then
    pyDropRight secret_value MARKER.data.length
  else
    secret_value

/-- DEFAULT_NICKNAME_PREFIX = "未命名账号" (line 17). -/
def defaultNicknameStem : String := "未命名账号"

/-- The nickname `get_next_default_nickname` (lines 22-26) returns when the
incremented global counter has just become `n`. -/
def defaultNickname (n : Nat) : String := defaultNicknameStem ++ "-" ++ toString n

/-- One merged account entry `{'nickname': ..., 'token': ...}`.  Both fields
hold whatever JSON value the input supplied (nicknames synthesized by the
script are strings). -/
structure Account where
  nickname : Json
  token : Json
deriving Repr, DecidableEq

/-- The mutable state of `load_and_merge_accounts`: the global
`unnamed_account_counter`, the `seen_tokens` set (kept as the list of tokens
in acceptance order; Python only tests membership) and `final_accounts`. -/
structure MergeState where
  counter : Nat
  seen : List Json
  accounts : List Account
deriving Repr, DecidableEq

/-- State at entry of `load_and_merge_accounts` (lines 37-39): counter reset
to 0, no tokens seen, no accounts. -/
def initState : MergeState := ⟨0, [], []⟩

/-- One iteration of either bulk loop (lines 55-68 and 73-86): the nickname
is computed - and the counter advanced when `raw_nickname` is falsy - BEFORE
the token checks, so an entry skipped for an empty or duplicate token still
advances the counter. -/
def processBulkItem (st : MergeState) (raw_nickname token : Json) : MergeState :=
  let counter := if raw_nickname.truthy then st.counter else st.counter + 1
  let nickname := if raw_nickname.truthy then raw_nickname
                  else Json.str (defaultNickname (st.counter + 1))
  if token.truthy = true ∧ token ∉ st.seen then
    ⟨counter, st.seen ++ [token], st.accounts ++ [⟨nickname, token⟩]⟩
  else
    ⟨counter, st.seen, st.accounts⟩

/-- The bulk loop over the extracted (raw_nickname, token) pairs. -/
def processEntries (st : MergeState) : List (Json × Json) → MergeState
  | [] => st
  | (n, t) :: rest => processEntries (processBulkItem st n t) rest

/-- Compact-format test (line 53): every element is a dict with exactly one
entry. -/
def compactShape (items : List Json) : Bool :=
  items.all fun it =>
    match it with
    | .obj fs => fs.toList.length == 1
    | _ => false

/-- Explicit-format test (line 71): every element is a dict containing both
a `nickname` and a `token` key. -/
def explicitShape (items : List Json) : Bool :=
  items.all fun it =>
    match it with
    | .obj fs => (fs.toList.any fun p => p.1 == "nickname")
                 && (fs.toList.any fun p => p.1 == "token")
    | _ => false

/-- Python `item.get(k, '')`: the value at key `k`, or the empty string. -/
def dictGet (fields : List (String × Json)) (k : String) : Json :=
  match fields.find? fun p => p.1 == k with
  | some p => p.2
  | none => .str ""

/-- nickname and token of a compact-format item (lines 56-57):
`list(item.keys())[0]` and `list(item.values())[0]`.  The catch-all branch
is unreachable when `compactShape` holds. -/
def compactFields (it : Json) : Json × Json :=
  match it with
  | .obj (.cons k v _) => (.str k, v)
  | _ => (.str "", .null)

/-- nickname and token of an explicit-format item (lines 74-75):
`item.get('nickname', '')` and `item.get('token', '')`.  The catch-all
branch is unreachable when `explicitShape` holds. -/
def explicitFields (it : Json) : Json × Json :=
  match it with
  | .obj fs => (dictGet fs.toList "nickname", dictGet fs.toList "token")
  | _ => (.str "", .str "")

/-- Message of the `TypeError` raised at line 50. -/
def rootTypeErr : String := "JSON 根元素必须是一个数组。"

/-- Message of the `TypeError` raised at line 88. -/
def listShapeErr : String := "JSON 列表格式不正确，既不是新格式也不是旧格式。"

/-- The three fatal conditions of `load_and_merge_accounts`; each one prints
a diagnostic and calls `sys.exit(1)`. -/
inductive Failure where
  | malformedJson (parseErr : String)
  | badShape (typeErr : String)
  | noAccounts
deriving Repr, DecidableEq

/-- Every fatal path of the script exits via `sys.exit(1)`. -/
def Failure.exitCode : Failure → Nat
  | _ => 1

/-- The diagnostic printed just before `sys.exit(1)` (lines 93, 96, 116);
the `f`-strings interpolate the caught exception's message. -/
def Failure.message : Failure → String
  | .malformedJson e => "❌ 错误: SKLAND_ACCOUNTS_JSON 不是有效的 JSON 格式。错误: " ++ e
  | .badShape e => "❌ 错误: SKLAND_ACCOUNTS_JSON 格式不正确。错误: " ++ e
  | .noAccounts => "❌ 错误: 未找到任何有效的账号配置信息。"

/-- The three environment variables.  `skland_accounts_json` models the
outcome of `json.loads(os.environ.get('SKLAND_ACCOUNTS_JSON', ''))`:
`none` when the variable is absent or empty (the `if json_str:` guard at
line 44 fails), `some (.error e)` when `json.loads` raises
`json.JSONDecodeError` with message `e`, and `some (.ok v)` when it parses
to the value `v`.  The other two default to the empty string when absent. -/
structure Env where
  skland_accounts_json : Option (Except String Json)
  skland_token : String
  skland_nickname : String

/-- Shape dispatch on the parsed bulk value (lines 49-88), returning the
(raw_nickname, token) pairs the loop would extract, or the fatal shape
error.  Compact is tried before explicit; extraction of the pairs is pure,
so extracting first and folding after is equivalent to the interleaved
Python loop. -/
def parseBulk (raw : Json) : Except Failure (List (Json × Json)) :=
  match raw with
  | .arr itemsJL =>
    let items := itemsJL.toList
    if compactShape items then .ok (items.map compactFields)
    else if explicitShape items then .ok (items.map explicitFields)
    else .error (.badShape listShapeErr)
  | _ => .error (.badShape rootTypeErr)

/-- The merge state after section 1 of `load_and_merge_accounts`
(lines 41-97), or the fatal error that ended the process there. -/
def stateAfterBulk (env : Env) : Except Failure MergeState :=
  match env.skland_accounts_json with
  | none => .ok initState
  | some (.error e) => .error (.malformedJson e)
  | some (.ok raw) => (parseBulk raw).map (processEntries initState)

/-- Section 2 of `load_and_merge_accounts` (lines 99-112): the standalone
pair.  The nickname is stripped (`.strip()` then `remove_marker`), the
token accepted only when non-empty and not already seen; an empty stripped
nickname falls back to the fixed literal `"未命名账号-独立"`. -/
def processStandalone (st : MergeState) (token nickname_env : String) : MergeState :=
  let nickname := remove_marker (pyStrip nickname_env)
  if token ≠ "" then
    if Json.str token ∉ st.seen then
      let final_nickname := if nickname ≠ "" then nickname else "未命名账号-独立"
      ⟨st.counter, st.seen ++ [.str token], st.accounts ++ [⟨.str final_nickname, .str token⟩]⟩
    else st
  else st

/-- The merge state after both sources (end of line 112), or the fatal
error that ended the process earlier. -/
def stateAfterBoth (env : Env) : Except Failure MergeState :=
  (stateAfterBulk env).map fun st =>
    processStandalone st env.skland_token env.skland_nickname

/-- load_and_merge_accounts (lines 28-119): the accepted accounts in
acceptance order, or the fatal error (`.error f` means the process printed
`f.message` and exited with status `f.exitCode`). -/
def load_and_merge_accounts (env : Env) : Except Failure (List Account) :=
  (stateAfterBoth env).bind fun st =>
    if st.accounts.isEmpty then .error .noAccounts else .ok st.accounts

/-- Lexicographic comparison of character sequences by code point: exactly
how Python compares two strings with `<=`. -/
def lexLe : List Char → List Char → Bool
  | [], _ => true
  | _ :: _, [] => false
  | a :: as, b :: bs =>
    if a.toNat < b.toNat then true
    else if b.toNat < a.toNat then false
    else lexLe as bs

/-- Python `x <= y` on strings. -/
def pyStrLe (x y : String) : Bool := lexLe x.data y.data

/-- Constructor rank used to extend the sort-key order across JSON kinds. -/
def Json.rank : Json → Nat
  | .str _ => 0
  | .num _ => 1
  | .bool _ => 2
  | .null => 3
  | .arr _ => 4
  | .obj _ => 5

/-- Sort-key comparison of `accounts.sort(key=lambda x: x.get('nickname', ''))`
(line 127); every account has a `nickname` key.  Python compares string keys
with `<`, which is code-point lexicographic.  On keys of different JSON
kinds Python would raise `TypeError` (the process would crash); the
cross-kind branch below is an arbitrary total extension, outside the
modelled domain, present only so the comparison is total. -/
def nickLe (a b : Account) : Bool :=
  match a.nickname, b.nickname with
  | .str x, .str y => pyStrLe x y
  | n1, n2 => decide (n1.rank ≤ n2.rank)

/-- Insert `a` into `l` after every element whose key is `<=` it - i.e.
before the first element `b` with `key a <= key b`.  This is the insertion
step of the unique stable sort. -/
def insertAcc (a : Account) : List Account → List Account
  | [] => [a]
  | b :: l => if nickLe a b then a :: b :: l else b :: insertAcc a l

/-- The effect of `accounts.sort(key=lambda x: x.get('nickname', ''))`
(line 127).  Python's `list.sort` is stable and sorts ascending by the key;
for a fixed total key order there is exactly one stable sorted permutation,
so this stable insertion sort produces the identical list. -/
def sortAccounts : List Account → List Account
  | [] => []
  | a :: l => insertAcc a (sortAccounts l)

/-- The document `main` builds (lines 129-132): fixed `log_level` "info"
and the sorted accounts under `users`. -/
structure Config where
  log_level : String
  users : List Account
deriving Repr, DecidableEq

/-- main (lines 122-140): merge, stable-sort by nickname, build the
document.  `.error f` means the process exited with status `f.exitCode`
before the document was built, and in particular before `config.yaml`
was opened for writing (line 135), so no output file is touched. -/
def main (env : Env) : Except Failure Config :=
  (load_and_merge_accounts env).map fun accounts =>
    { log_level := "info", users := sortAccounts accounts }

/-! Order lemmas for the sort-key comparison. -/

theorem lexLe_refl : ∀ x : List Char, lexLe x x = true
  | [] => rfl
  | a :: as => by simp [lexLe, lexLe_refl as]

theorem lexLe_total : ∀ x y : List Char, lexLe x y = true ∨ lexLe y x = true
  | [], _ => .inl rfl
  | _ :: _, [] => .inr rfl
  | a :: as, b :: bs => by
    rcases Nat.lt_trichotomy a.toNat b.toNat with h | h | h
    · exact .inl (by simp [lexLe, h])
    · rcases lexLe_total as bs with ih | ih
      · exact .inl (by simp [lexLe, h, ih])
      · exact .inr (by simp [lexLe, h.symm, ih])
    · exact .inr (by simp [lexLe, h])

theorem lexLe_trans : ∀ x y z : List Char,
    lexLe x y = true → lexLe y z = true → lexLe x z = true
  | [], _, _, _, _ => rfl
  | _ :: _, [], _, h, _ => by simp [lexLe] at h
  | _ :: _, _ :: _, [], _, h => by simp [lexLe] at h
  | a :: as, b :: bs, c :: cs, h1, h2 => by
    simp only [lexLe] at h1 h2 ⊢
    rcases Nat.lt_trichotomy a.toNat b.toNat with hab | hab | hab <;>
      rcases Nat.lt_trichotomy b.toNat c.toNat with hbc | hbc | hbc <;>
      simp_all [Nat.lt_irrefl] <;>
      first
        | omega
        | (constructor <;> omega)
        | skip
    · exact lexLe_trans as bs cs h1 h2

theorem nickLe_of_eq {a b : Account} (h : a.nickname = b.nickname) :
    nickLe a b = true := by
  unfold nickLe
  rw [h]
  cases b.nickname with
  | str s => exact lexLe_refl s.data
  | num n => simp
  | bool x => simp
  | null => simp
  | arr l => simp
  | obj l => simp

theorem nickLe_total (a b : Account) : nickLe a b = true ∨ nickLe b a = true := by
  unfold nickLe
  cases ha : a.nickname <;> cases hb : b.nickname <;>
    simp_all [Json.rank] <;> try omega
  exact lexLe_total _ _

theorem nickLe_trans {a b c : Account} (h1 : nickLe a b = true)
    (h2 : nickLe b c = true) : nickLe a c = true := by
  unfold nickLe at *
  cases ha : a.nickname <;> cases hb : b.nickname <;> cases hc : c.nickname <;>
    simp_all [Json.rank] <;> try omega
  exact lexLe_trans _ _ _ h1 h2

/-! The stable insertion sort: permutation, sortedness, stability. -/

theorem insertAcc_perm (a : Account) : ∀ l : List Account,
    (insertAcc a l).Perm (a :: l)
  | [] => .refl _
  | b :: l => by
    unfold insertAcc
    split
    · exact .refl _
    · exact ((insertAcc_perm a l).cons b).trans (.swap a b l)

theorem sortAccounts_perm : ∀ l : List Account, (sortAccounts l).Perm l
  | [] => .refl _
  | a :: l => (insertAcc_perm a (sortAccounts l)).trans ((sortAccounts_perm l).cons a)

theorem insertAcc_sorted (a : Account) : ∀ l : List Account,
    l.Pairwise (fun x y => nickLe x y = true) →
    (insertAcc a l).Pairwise (fun x y => nickLe x y = true)
  | [], _ => by simp [insertAcc]
  | b :: l, h => by
    unfold insertAcc
    rcases List.pairwise_cons.mp h with ⟨hb, hl⟩
    split
    · rename_i hab
      refine List.pairwise_cons.mpr ⟨fun x hx => ?_, h⟩
      rcases List.mem_cons.mp hx with rfl | hx'
      · exact hab
      · exact nickLe_trans hab (hb x hx')
    · rename_i hab
      have hba : nickLe b a = true := by
        rcases nickLe_total a b with h' | h'
        · exact absurd h' hab
        · exact h'
      refine List.pairwise_cons.mpr ⟨fun x hx => ?_, insertAcc_sorted a l hl⟩
      rcases List.mem_cons.mp ((insertAcc_perm a l).mem_iff.mp hx) with rfl | hx'
      · exact hba
      · exact hb x hx'

theorem sortAccounts_sorted : ∀ l : List Account,
    (sortAccounts l).Pairwise (fun x y => nickLe x y = true)
  | [] => List.Pairwise.nil
  | a :: l => insertAcc_sorted a (sortAccounts l) (sortAccounts_sorted l)

theorem insertAcc_filter_key (a : Account) (j : Json) : ∀ l : List Account,
    (insertAcc a l).filter (fun x => x.nickname == j)
      = if a.nickname == j then a :: l.filter (fun x => x.nickname == j)
        else l.filter (fun x => x.nickname == j)
  | [] => by
    simp [insertAcc, List.filter_cons]
  | b :: l => by
    unfold insertAcc
    split
    · rename_i hab
      simp only [List.filter_cons]
    · rename_i hab
      by_cases hpa : a.nickname == j
      · have hpb : (b.nickname == j) = false := by
          by_contra hc
          have hbj : b.nickname = j := beq_iff_eq.mp (Bool.not_eq_false _ |>.mp hc)
          have haj : a.nickname = j := beq_iff_eq.mp hpa
          exact hab (nickLe_of_eq (haj.trans hbj.symm))
        simp only [List.filter_cons, hpb, hpa]
        rw [insertAcc_filter_key a j l]
        simp [hpa]
      · have hpa' : (a.nickname == j) = false := Bool.not_eq_true _ |>.mp hpa
        simp only [List.filter_cons, hpa']
        rw [insertAcc_filter_key a j l]
        simp only [hpa', Bool.false_eq_true, if_false]

theorem sortAccounts_filter_key (j : Json) : ∀ l : List Account,
    (sortAccounts l).filter (fun x => x.nickname == j)
      = l.filter (fun x => x.nickname == j)
  | [] => rfl
  | a :: l => by
    simp only [sortAccounts]
    rw [insertAcc_filter_key a j (sortAccounts l), sortAccounts_filter_key j l,
      List.filter_cons]

/-! Behaviour of the merge steps. -/

theorem string_ne_empty_data {s : String} (h : s ≠ "") : s.data ≠ [] := by
  intro hd
  apply h
  cases s with
  | mk data => rw [show data = [] from hd]

theorem str_truthy_of_ne_empty {s : String} (h : s ≠ "") :
    (Json.str s).truthy = true := by
  simp only [Json.truthy, Bool.not_eq_eq_eq_not, Bool.not_true]
  exact List.isEmpty_eq_false_iff_exists_mem.mpr
    (List.exists_mem_of_ne_nil _ (string_ne_empty_data h))

theorem processBulkItem_counter (st : MergeState) (n t : Json) :
    (processBulkItem st n t).counter
      = if n.truthy then st.counter else st.counter + 1 := by
  by_cases hn : n.truthy <;>
    by_cases hc : t.truthy = true ∧ t ∉ st.seen <;>
    simp [processBulkItem, hn, hc]

theorem processBulkItem_accept_unnamed (st : MergeState) (n t : Json)
    (hn : n.truthy = false) (ht : t.truthy = true) (hseen : t ∉ st.seen) :
    processBulkItem st n t
      = ⟨st.counter + 1, st.seen ++ [t],
         st.accounts ++ [⟨.str (defaultNickname (st.counter + 1)), t⟩]⟩ := by
  simp [processBulkItem, hn, ht, hseen]

theorem processBulkItem_accept_named (st : MergeState) (n t : Json)
    (hn : n.truthy = true) (ht : t.truthy = true) (hseen : t ∉ st.seen) :
    processBulkItem st n t
      = ⟨st.counter, st.seen ++ [t], st.accounts ++ [⟨n, t⟩]⟩ := by
  simp [processBulkItem, hn, ht, hseen]

theorem processBulkItem_skip (st : MergeState) (n t : Json)
    (hc : ¬(t.truthy = true ∧ t ∉ st.seen)) :
    (processBulkItem st n t).seen = st.seen
      ∧ (processBulkItem st n t).accounts = st.accounts := by
  simp [processBulkItem, hc]

theorem processBulkItem_accounts_extend (st : MergeState) (n t : Json) :
    ∃ l, (processBulkItem st n t).accounts = st.accounts ++ l := by
  by_cases hc : t.truthy = true ∧ t ∉ st.seen
  · by_cases hn : n.truthy
    · exact ⟨_, by rw [processBulkItem_accept_named st n t hn hc.1 hc.2]⟩
    · exact ⟨_, by
        rw [processBulkItem_accept_unnamed st n t (Bool.not_eq_true _ |>.mp hn)
          hc.1 hc.2]⟩
  · exact ⟨[], by rw [(processBulkItem_skip st n t hc).2, List.append_nil]⟩

theorem processEntries_append (xs ys : List (Json × Json)) : ∀ st : MergeState,
    processEntries st (xs ++ ys) = processEntries (processEntries st xs) ys := by
  induction xs with
  | nil => intro st; rfl
  | cons x xs ih =>
    intro st
    cases x with
    | mk n t =>
      rw [List.cons_append]
      show processEntries (processBulkItem st n t) (xs ++ ys) = _
      rw [ih]
      rfl

theorem processEntries_counter (es : List (Json × Json)) : ∀ st : MergeState,
    (processEntries st es).counter
      = st.counter + (es.filter fun e => !e.1.truthy).length := by
  induction es with
  | nil => intro st; simp [processEntries]
  | cons e rest ih =>
    intro st
    cases e with
    | mk n t =>
      simp only [processEntries]
      rw [ih, processBulkItem_counter]
      by_cases hn : n.truthy
      · simp [List.filter_cons, hn]
      · simp only [Bool.not_eq_true] at hn
        simp [List.filter_cons, hn]
        omega

theorem processEntries_accounts_extend (es : List (Json × Json)) :
    ∀ st : MergeState, ∃ l, (processEntries st es).accounts = st.accounts ++ l := by
  induction es with
  | nil => intro st; exact ⟨[], (List.append_nil _).symm⟩
  | cons e rest ih =>
    intro st
    cases e with
    | mk n t =>
      obtain ⟨l1, h1⟩ := processBulkItem_accounts_extend st n t
      obtain ⟨l2, h2⟩ := ih (processBulkItem st n t)
      exact ⟨l1 ++ l2, by simp only [processEntries, h2, h1, List.append_assoc]⟩

/-- The invariant of the merge state: `seen_tokens` is exactly the tokens
of the accepted accounts in order, without duplicates, all truthy. -/
def stInv (st : MergeState) : Prop :=
  st.seen = st.accounts.map Account.token ∧ st.seen.Nodup
    ∧ ∀ t ∈ st.seen, t.truthy = true

theorem stInv_init : stInv initState := by
  refine ⟨rfl, List.nodup_nil, ?_⟩
  intro t ht
  simp [initState] at ht

theorem stInv_append {st : MergeState} (h : stInv st) (c : Nat) (nick t : Json)
    (ht : t.truthy = true) (hmem : t ∉ st.seen) :
    stInv ⟨c, st.seen ++ [t], st.accounts ++ [⟨nick, t⟩]⟩ := by
  obtain ⟨h1, h2, h3⟩ := h
  refine ⟨?_, ?_, ?_⟩
  · simp [h1]
  · simp [List.nodup_append, h2, hmem]
  · intro x hx
    rcases List.mem_append.mp hx with hx' | hx'
    · exact h3 x hx'
    · rw [List.mem_singleton.mp hx']; exact ht

theorem stInv_processBulkItem (st : MergeState) (n t : Json) (h : stInv st) :
    stInv (processBulkItem st n t) := by
  by_cases hc : t.truthy = true ∧ t ∉ st.seen
  · by_cases hn : n.truthy
    · rw [processBulkItem_accept_named st n t hn hc.1 hc.2]
      exact stInv_append h _ _ _ hc.1 hc.2
    · rw [processBulkItem_accept_unnamed st n t (Bool.not_eq_true _ |>.mp hn)
        hc.1 hc.2]
      exact stInv_append h _ _ _ hc.1 hc.2
  · obtain ⟨hs, ha⟩ := processBulkItem_skip st n t hc
    obtain ⟨h1, h2, h3⟩ := h
    exact ⟨by rw [hs, ha, h1], by rw [hs]; exact h2, by rw [hs]; exact h3⟩

theorem stInv_processEntries (es : List (Json × Json)) : ∀ st : MergeState,
    stInv st → stInv (processEntries st es) := by
  induction es with
  | nil => intro st h; exact h
  | cons e rest ih =>
    intro st h
    cases e with
    | mk n t => exact ih _ (stInv_processBulkItem st n t h)

theorem processStandalone_empty (st : MergeState) (nick : String) :
    processStandalone st "" nick = st := by
  simp [processStandalone]

theorem processStandalone_seen (st : MergeState) (tok nick : String)
    (hmem : Json.str tok ∈ st.seen) :
    processStandalone st tok nick = st := by
  by_cases htok : tok = ""
  · subst htok; simp [processStandalone]
  · simp [processStandalone, htok, hmem]

theorem processStandalone_accept (st : MergeState) (tok nick : String)
    (htok : tok ≠ "") (hmem : Json.str tok ∉ st.seen) :
    processStandalone st tok nick
      = ⟨st.counter, st.seen ++ [Json.str tok],
         st.accounts
           ++ [⟨.str (if remove_marker (pyStrip nick) ≠ ""
                      then remove_marker (pyStrip nick) else "未命名账号-独立"),
                .str tok⟩]⟩ := by
  by_cases hn : remove_marker (pyStrip nick) = "" <;>
    simp [processStandalone, htok, hmem, hn]

theorem stInv_processStandalone (st : MergeState) (tok nick : String)
    (h : stInv st) : stInv (processStandalone st tok nick) := by
  by_cases htok : tok = ""
  · subst htok; rw [processStandalone_empty]; exact h
  · by_cases hmem : Json.str tok ∈ st.seen
    · rw [processStandalone_seen st tok nick hmem]; exact h
    · rw [processStandalone_accept st tok nick htok hmem]
      exact stInv_append h _ _ _ (str_truthy_of_ne_empty htok) hmem

/-! Plumbing between the pipeline stages. -/

theorem toList_ofList (l : List Json) : (JsonList.ofList l).toList = l := by
  induction l with
  | nil => rfl
  | cons a l ih => simp [JsonList.ofList, JsonList.toList, ih]

theorem stateAfterBoth_of_bulk {env : Env} {stB : MergeState}
    (h : stateAfterBulk env = .ok stB) :
    stateAfterBoth env
      = .ok (processStandalone stB env.skland_token env.skland_nickname) := by
  unfold stateAfterBoth
  rw [h]
  rfl

theorem stateAfterBoth_ok_elim {env : Env} {st : MergeState}
    (h : stateAfterBoth env = .ok st) :
    ∃ stB, stateAfterBulk env = .ok stB
      ∧ st = processStandalone stB env.skland_token env.skland_nickname := by
  unfold stateAfterBoth at h
  cases hb : stateAfterBulk env with
  | error f => rw [hb] at h; simp [Except.map] at h
  | ok stB =>
    rw [hb] at h
    simp only [Except.map, Except.ok.injEq] at h
    exact ⟨stB, rfl, h.symm⟩

theorem stInv_stateAfterBulk {env : Env} {stB : MergeState}
    (h : stateAfterBulk env = .ok stB) : stInv stB := by
  unfold stateAfterBulk at h
  cases hj : env.skland_accounts_json with
  | none =>
    rw [hj] at h
    simp only [Except.ok.injEq] at h
    rw [← h]
    exact stInv_init
  | some r =>
    rw [hj] at h
    cases r with
    | error e => simp at h
    | ok raw =>
      dsimp only at h
      cases hp : parseBulk raw with
      | error f => rw [hp] at h; simp [Except.map] at h
      | ok entries =>
        rw [hp] at h
        simp only [Except.map, Except.ok.injEq] at h
        rw [← h]
        exact stInv_processEntries entries initState stInv_init

theorem stInv_stateAfterBoth {env : Env} {st : MergeState}
    (h : stateAfterBoth env = .ok st) : stInv st := by
  obtain ⟨stB, hb, hst⟩ := stateAfterBoth_ok_elim h
  rw [hst]
  exact stInv_processStandalone _ _ _ (stInv_stateAfterBulk hb)

theorem load_ok_elim {env : Env} {accs : List Account}
    (h : load_and_merge_accounts env = .ok accs) :
    ∃ st, stateAfterBoth env = .ok st ∧ st.accounts = accs ∧ accs ≠ [] := by
  unfold load_and_merge_accounts at h
  cases hb : stateAfterBoth env with
  | error f => rw [hb] at h; simp [Except.bind] at h
  | ok st =>
    rw [hb] at h
    simp only [Except.bind] at h
    by_cases he : st.accounts.isEmpty
    · rw [if_pos he] at h; cases h
    · rw [if_neg he] at h
      injection h with h'
      refine ⟨st, rfl, h', ?_⟩
      rw [← h']
      simpa [List.isEmpty_iff] using he

theorem load_of_state {env : Env} {st : MergeState}
    (hb : stateAfterBoth env = .ok st) (hne : st.accounts ≠ []) :
    load_and_merge_accounts env = .ok st.accounts := by
  unfold load_and_merge_accounts
  rw [hb]
  simp only [Except.bind]
  rw [if_neg (by simpa [List.isEmpty_iff] using hne)]

theorem main_of_load {env : Env} {accs : List Account}
    (h : load_and_merge_accounts env = .ok accs) :
    main env = .ok ⟨"info", sortAccounts accs⟩ := by
  unfold main
  rw [h]
  rfl

theorem main_ok_elim {env : Env} {conf : Config} (h : main env = .ok conf) :
    ∃ accs, load_and_merge_accounts env = .ok accs
      ∧ conf = ⟨"info", sortAccounts accs⟩ := by
  unfold main at h
  cases hl : load_and_merge_accounts env with
  | error f => rw [hl] at h; simp [Except.map] at h
  | ok accs =>
    rw [hl] at h
    simp only [Except.map, Except.ok.injEq] at h
    exact ⟨accs, rfl, h.symm⟩

theorem main_err_of_load {env : Env} {f : Failure}
    (h : load_and_merge_accounts env = .error f) : main env = .error f := by
  unfold main
  rw [h]
  rfl

/-! The account count produced by the bulk loop. -/

theorem finset_insert_sdiff_card (t : Json) (F S : Finset Json) (h : t ∉ S) :
    (insert t F \ S).card = (F \ insert t S).card + 1 := by
  have hset : insert t F \ S = insert t (F \ insert t S) := by
    ext x
    by_cases hxt : x = t
    · subst hxt; simp [h]
    · simp [Finset.mem_sdiff, Finset.mem_insert, hxt]
  rw [hset, Finset.card_insert_of_not_mem]
  intro hc
  exact (Finset.mem_sdiff.mp hc).2 (Finset.mem_insert_self t S)

theorem processBulkItem_accept_parts (st : MergeState) (n t : Json)
    (ht : t.truthy = true) (hmem : t ∉ st.seen) :
    (processBulkItem st n t).seen = st.seen ++ [t]
      ∧ (processBulkItem st n t).accounts.length = st.accounts.length + 1 := by
  by_cases hn : n.truthy
  · rw [processBulkItem_accept_named st n t hn ht hmem]; simp
  · rw [processBulkItem_accept_unnamed st n t (Bool.not_eq_true _ |>.mp hn)
      ht hmem]
    simp

theorem processEntries_length (es : List (Json × Json)) : ∀ st : MergeState,
    (processEntries st es).accounts.length
      = st.accounts.length
        + (((es.map Prod.snd).filter Json.truthy).toFinset \ st.seen.toFinset).card := by
  induction es with
  | nil => intro st; simp [processEntries]
  | cons e rest ih =>
    intro st
    cases e with
    | mk n t =>
      simp only [processEntries, List.map_cons]
      rw [ih]
      by_cases ht : t.truthy
      · by_cases hmem : t ∈ st.seen
        · obtain ⟨hs, ha⟩ := processBulkItem_skip st n t (fun hc => hc.2 hmem)
          rw [hs, ha, List.filter_cons, if_pos ht, List.toFinset_cons,
            Finset.insert_sdiff_of_mem _ (List.mem_toFinset.mpr hmem)]
        · obtain ⟨hs, ha⟩ := processBulkItem_accept_parts st n t ht hmem
          rw [hs, ha, List.filter_cons, if_pos ht, List.toFinset_cons]
          have htS : t ∉ st.seen.toFinset := fun hc => hmem (List.mem_toFinset.mp hc)
          rw [finset_insert_sdiff_card t _ _ htS]
          have : (st.seen ++ [t]).toFinset = insert t st.seen.toFinset := by
            rw [List.toFinset_append, Finset.union_comm]
            rfl
          rw [this]
          omega
      · have ht' : t.truthy = false := Bool.not_eq_true _ |>.mp ht
        obtain ⟨hs, ha⟩ := processBulkItem_skip st n t (fun hc => ht hc.1)
        rw [hs, ha, List.filter_cons, if_neg (by simp [ht'])]

/-! Last helpers before the claims. -/

theorem stateAfterBoth_err {env : Env} {f : Failure}
    (h : stateAfterBulk env = .error f) : stateAfterBoth env = .error f := by
  unfold stateAfterBoth
  rw [h]
  rfl

theorem load_err {env : Env} {f : Failure}
    (h : stateAfterBoth env = .error f) :
    load_and_merge_accounts env = .error f := by
  unfold load_and_merge_accounts
  rw [h]
  rfl

theorem stateAfterBulk_compact {items : List Json} (tok nick : String)
    (h : compactShape items = true) :
    stateAfterBulk ⟨some (.ok (.arr (JsonList.ofList items))), tok, nick⟩
      = .ok (processEntries initState (items.map compactFields)) := by
  unfold stateAfterBulk parseBulk
  dsimp only
  rw [toList_ofList, if_pos h]
  rfl

theorem stateAfterBulk_explicit {items : List Json} (tok nick : String)
    (hc : compactShape items = false) (h : explicitShape items = true) :
    stateAfterBulk ⟨some (.ok (.arr (JsonList.ofList items))), tok, nick⟩
      = .ok (processEntries initState (items.map explicitFields)) := by
  unfold stateAfterBulk parseBulk
  dsimp only
  rw [toList_ofList, if_neg (by simp [hc]), if_pos h]
  rfl

theorem processStandalone_congr (st : MergeState) (tok : String)
    {n1 n2 : String}
    (h : remove_marker (pyStrip n1) = remove_marker (pyStrip n2)) :
    processStandalone st tok n1 = processStandalone st tok n2 := by
  unfold processStandalone
  rw [h]

theorem filter_truthy_eq (ts : List Json)
    (h : ∀ tv ∈ ts, ∃ s : String, tv = Json.str s) :
    ts.filter Json.truthy = ts.filter (fun tv => tv != Json.str "") := by
  apply List.filter_congr
  intro tv htv
  obtain ⟨s, rfl⟩ := h tv htv
  by_cases hs : s = ""
  · subst hs; decide
  · have h1 : s.data.isEmpty = false := by
      simpa [List.isEmpty_iff] using string_ne_empty_data hs
    have h2 : (Json.str s != Json.str "") = true := by
      simp [bne_iff_ne, hs]
    simp only [Json.truthy, h1, h2, Bool.not_false]

/-! The claims. -/

/-- Claim C3: duplicate detection is cross-source and bulk wins ties.  When
the standalone token is already among the tokens accepted from the bulk
source, the standalone pair contributes nothing (the state after both
sources is the bulk state unchanged), and the tokens of the merged list are
pairwise distinct. -/
theorem claim_C3 (env : Env) (stB : MergeState) (accs : List Account)
    (hb : stateAfterBulk env = .ok stB)
    (hdup : Json.str env.skland_token ∈ stB.seen) :
    stateAfterBoth env = .ok stB
    ∧ (load_and_merge_accounts env = .ok accs →
        (accs.map Account.token).Nodup) := by
  refine ⟨?_, fun hload => ?_⟩
  · rw [stateAfterBoth_of_bulk hb, processStandalone_seen _ _ _ hdup]
  · obtain ⟨st, hsb, hacc, -⟩ := load_ok_elim hload
    obtain ⟨hseen, hnodup, -⟩ := stInv_stateAfterBoth hsb
    rw [← hacc, ← hseen]
    exact hnodup

/-- Witness for C3 at a concrete input: bulk `[{"a": "t1"}]` and standalone
token `"t1"` - the standalone pair is dropped as a duplicate. -/
theorem claim_C3_witness :
    stateAfterBoth ⟨some (.ok (.arr (.cons (.obj (.cons "a" (.str "t1") .nil)) .nil))),
        "t1", ""⟩
      = .ok ⟨0, [.str "t1"], [⟨.str "a", .str "t1"⟩]⟩
    ∧ (([⟨Json.str "a", Json.str "t1"⟩] : List Account).map Account.token).Nodup :=
  ⟨(claim_C3 ⟨some (.ok (.arr (.cons (.obj (.cons "a" (.str "t1") .nil)) .nil))), "t1", ""⟩
      ⟨0, [.str "t1"], [⟨.str "a", .str "t1"⟩]⟩ [⟨.str "a", .str "t1"⟩]
      rfl (by decide)).1,
   (claim_C3 ⟨some (.ok (.arr (.cons (.obj (.cons "a" (.str "t1") .nil)) .nil))), "t1", ""⟩
      ⟨0, [.str "t1"], [⟨.str "a", .str "t1"⟩]⟩ [⟨.str "a", .str "t1"⟩]
      rfl (by decide)).2 rfl⟩

/-- Claim C4: when both sources yield zero accepted accounts the script
prints the no-valid-configuration error and exits with status 1; in the
model `main` returns the error before any `Config` document is built, so
`config.yaml` is never opened for writing. -/
theorem claim_C4 (env : Env) (st : MergeState)
    (hb : stateAfterBoth env = .ok st) (hzero : st.accounts = []) :
    load_and_merge_accounts env = .error .noAccounts
    ∧ main env = .error .noAccounts
    ∧ Failure.noAccounts.exitCode = 1
    ∧ Failure.noAccounts.exitCode ≠ 0 := by
  have hload : load_and_merge_accounts env = .error .noAccounts := by
    unfold load_and_merge_accounts
    rw [hb]
    simp [Except.bind, hzero]
  exact ⟨hload, main_err_of_load hload, rfl, by decide⟩

/-- Witness for C4: no bulk JSON, no standalone token. -/
theorem claim_C4_witness :
    main ⟨none, "", ""⟩ = .error .noAccounts :=
  (claim_C4 ⟨none, "", ""⟩ initState rfl rfl).2.1

/-- Claim C7: the standalone nickname is stripped of surrounding whitespace
before the marker check, so a marker followed by trailing whitespace is
still detected: `"  Alice_END  "` is stored as `"Alice"`, the whole run
treats it exactly like the plain nickname `"Alice"`, and indeed the raw
(untrimmed) string does not even end with the marker while the trimmed one
does. -/
theorem claim_C7 :
    load_and_merge_accounts ⟨none, "tok", "  Alice_END  "⟩
      = .ok [⟨.str "Alice", .str "tok"⟩]
    ∧ remove_marker (pyStrip "  Alice_END  ") = "Alice"
    ∧ pyEndsWith "  Alice_END  " MARKER = false
    ∧ pyEndsWith (pyStrip "  Alice_END  ") MARKER = true
    ∧ (∀ (st : MergeState) (tok : String),
        processStandalone st tok "  Alice_END  " = processStandalone st tok "Alice") :=
  ⟨rfl, rfl, rfl, rfl, fun st tok => processStandalone_congr st tok rfl⟩

/-- Claim C9: the empty JSON array is classified as the compact shape
(vacuously), raises no shape error and contributes no account, so with no
standalone token the run fails with the zero-accounts error - a different
failure than the two shape errors. -/
theorem claim_C9 (nick : String) :
    compactShape [] = true
    ∧ stateAfterBulk ⟨some (.ok (.arr .nil)), "", nick⟩ = .ok initState
    ∧ load_and_merge_accounts ⟨some (.ok (.arr .nil)), "", nick⟩
        = .error .noAccounts
    ∧ (∀ msg : String, (Failure.noAccounts == Failure.badShape msg) = false)
    ∧ (∀ msg : String, (Failure.noAccounts == Failure.malformedJson msg) = false) := by
  exact ⟨rfl, rfl, rfl, fun msg => rfl, fun msg => rfl⟩

/-- Claim C10: `remove_marker` strips at most one trailing occurrence of
the marker: a string ending in `"_END"` loses exactly its last four
characters (`len(MARKER) = 4`), any other string is returned unchanged,
and `"X_END_END"` becomes `"X_END"`, which still ends in the marker. -/
theorem claim_C10 :
    (∀ s : String, pyEndsWith s MARKER = true →
        remove_marker s = pyDropRight s MARKER.data.length)
    ∧ (∀ s : String, pyEndsWith s MARKER = false → remove_marker s = s)
    ∧ MARKER.data.length = 4
    ∧ remove_marker "X_END_END" = "X_END"
    ∧ pyEndsWith "X_END" MARKER = true := by
  refine ⟨?_, ?_, rfl, rfl, rfl⟩
  · intro s h
    have hsuf : MARKER.data <:+ s.data := by
      have := h
      unfold pyEndsWith at this
      exact List.isSuffixOf_iff_suffix.mp this
    obtain ⟨pre, hpre⟩ := hsuf
    have hne : s.data.isEmpty = false := by
      rw [List.isEmpty_eq_false_iff_exists_mem]
      exact ⟨'D', by rw [← hpre]; simp [MARKER]⟩
    unfold remove_marker
    simp [hne, h]
  · intro s h
    unfold remove_marker
    simp [h]

/-- Witness for C10: applied at `"A_END"` (ends in the marker, loses four
characters) and at `"abc"` (unchanged). -/
theorem claim_C10_witness :
    remove_marker "A_END" = pyDropRight "A_END" MARKER.data.length
    ∧ remove_marker "abc" = "abc" :=
  ⟨claim_C10.1 "A_END" rfl, claim_C10.2.1 "abc" rfl⟩

/-- Count of accounts the bulk loop accepts from scratch: the number of
distinct truthy token values. -/
theorem bulk_count (entries : List (Json × Json)) :
    (processEntries initState entries).accounts.length
      = ((entries.map Prod.snd).filter Json.truthy).toFinset.card := by
  rw [processEntries_length]
  simp [initState]

/-- Claim C1 as stated is false on the code.  The compact bulk input
`[{"": ""}, {"": "t1"}]` has its first entry skipped for an empty token,
yet that entry still advances the unnamed counter, so the single accepted
nickname-less account is named `未命名账号-2`, not `未命名账号-1`: the
suffixes of accepted accounts are not contiguous from 1. -/
theorem claim_C1_counterexample :
    load_and_merge_accounts
        ⟨some (.ok (.arr (.cons (.obj (.cons "" (.str "") .nil))
          (.cons (.obj (.cons "" (.str "t1") .nil)) .nil)))), "", ""⟩
      = .ok [⟨.str (defaultNickname 2), .str "t1"⟩]
    ∧ defaultNickname 2 ≠ defaultNickname 1 :=
  ⟨rfl, by decide⟩

/-- Claim C1 amended: the unnamed counter is incremented once per bulk
entry lacking a nickname whether or not the entry is accepted, so the
counter after the loop counts all nickname-less entries, and an accepted
nickname-less entry preceded by `k` nickname-less entries (skipped ones
included) is stored with suffix `k + 1`. -/
theorem claim_C1 (st : MergeState) (pre rest : List (Json × Json)) (n t : Json)
    (hn : n.truthy = false) (ht : t.truthy = true)
    (hseen : t ∉ (processEntries st pre).seen) :
    Account.mk
        (.str (defaultNickname
          (st.counter + (pre.filter fun e => !e.1.truthy).length + 1))) t
      ∈ (processEntries st (pre ++ (n, t) :: rest)).accounts
    ∧ (∀ (es : List (Json × Json)) (st2 : MergeState),
        (processEntries st2 es).counter
          = st2.counter + (es.filter fun e => !e.1.truthy).length) := by
  refine ⟨?_, fun es st2 => processEntries_counter es st2⟩
  rw [processEntries_append]
  show _ ∈ (processEntries (processBulkItem (processEntries st pre) n t) rest).accounts
  obtain ⟨l, hl⟩ :=
    processEntries_accounts_extend rest (processBulkItem (processEntries st pre) n t)
  rw [hl, processBulkItem_accept_unnamed _ n t hn ht hseen]
  have hc := processEntries_counter pre st
  dsimp only
  rw [hc]
  simp [List.mem_append]

/-- Witness for the amended C1: one skipped nickname-less entry (empty
token), then an accepted nickname-less entry - stored with suffix 2. -/
theorem claim_C1_witness :
    Account.mk
        (.str (defaultNickname
          (initState.counter
            + (([((Json.str ""), (Json.str ""))] : List (Json × Json)).filter
                fun e => !e.1.truthy).length + 1))) (.str "t1")
      ∈ (processEntries initState
          ([((Json.str ""), (Json.str ""))] ++ ((Json.str ""), (Json.str "t1")) :: [])).accounts :=
  (claim_C1 initState [((Json.str ""), (Json.str ""))] [] (.str "") (.str "t1")
    rfl rfl (by decide)).1

/-- Claim C2: with no standalone token, for a valid bulk input in compact
or in explicit shape whose token values are strings, the number of
accounts in the output equals the number of distinct non-empty token
values among the entries. -/
theorem claim_C2 (items : List Json) (nick : String) (accs : List Account) :
    (compactShape items = true →
      (∀ it ∈ items, ∃ s : String, (compactFields it).2 = .str s) →
      load_and_merge_accounts ⟨some (.ok (.arr (JsonList.ofList items))), "", nick⟩
        = .ok accs →
      accs.length
        = ((items.map fun it => (compactFields it).2).filter
            fun tv => tv != Json.str "").toFinset.card)
    ∧ (compactShape items = false → explicitShape items = true →
      (∀ it ∈ items, ∃ s : String, (explicitFields it).2 = .str s) →
      load_and_merge_accounts ⟨some (.ok (.arr (JsonList.ofList items))), "", nick⟩
        = .ok accs →
      accs.length
        = ((items.map fun it => (explicitFields it).2).filter
            fun tv => tv != Json.str "").toFinset.card) := by
  constructor
  · intro hshape hstr hload
    have hb := stateAfterBulk_compact "" nick hshape
    obtain ⟨stq, hsb, hacc, -⟩ := load_ok_elim hload
    have hboth : stateAfterBoth ⟨some (.ok (.arr (JsonList.ofList items))), "", nick⟩
        = .ok (processEntries initState (items.map compactFields)) := by
      rw [stateAfterBoth_of_bulk hb]
      rw [processStandalone_empty]
    rw [hboth] at hsb
    injection hsb with hsb'
    subst hsb'
    have hcond : ∀ tv ∈ (items.map fun it => (compactFields it).2),
        ∃ s : String, tv = Json.str s := by
      intro tv htv
      obtain ⟨it, hit, rfl⟩ := List.mem_map.mp htv
      exact hstr it hit
    rw [← hacc, bulk_count, List.map_map]
    have hfun : items.map (Prod.snd ∘ compactFields)
        = items.map fun it => (compactFields it).2 := rfl
    rw [hfun, filter_truthy_eq _ hcond]
  · intro hcs hshape hstr hload
    have hb := stateAfterBulk_explicit "" nick hcs hshape
    obtain ⟨stq, hsb, hacc, -⟩ := load_ok_elim hload
    have hboth : stateAfterBoth ⟨some (.ok (.arr (JsonList.ofList items))), "", nick⟩
        = .ok (processEntries initState (items.map explicitFields)) := by
      rw [stateAfterBoth_of_bulk hb]
      rw [processStandalone_empty]
    rw [hboth] at hsb
    injection hsb with hsb'
    subst hsb'
    have hcond : ∀ tv ∈ (items.map fun it => (explicitFields it).2),
        ∃ s : String, tv = Json.str s := by
      intro tv htv
      obtain ⟨it, hit, rfl⟩ := List.mem_map.mp htv
      exact hstr it hit
    rw [← hacc, bulk_count, List.map_map]
    have hfun : items.map (Prod.snd ∘ explicitFields)
        = items.map fun it => (explicitFields it).2 := rfl
    rw [hfun, filter_truthy_eq _ hcond]

/-- Witness for C2: compact input `[{"a": "t1"}, {"b": ""}, {"c": "t1"}]`
accepts exactly one account (one distinct non-empty token). -/
theorem claim_C2_witness :
    load_and_merge_accounts
        ⟨some (.ok (.arr (JsonList.ofList
          [Json.obj (.cons "a" (.str "t1") .nil),
           Json.obj (.cons "b" (.str "") .nil),
           Json.obj (.cons "c" (.str "t1") .nil)]))), "", ""⟩
      = .ok [⟨.str "a", .str "t1"⟩]
    ∧ ((([Json.obj (.cons "a" (.str "t1") .nil),
         Json.obj (.cons "b" (.str "") .nil),
         Json.obj (.cons "c" (.str "t1") .nil)].map
           fun it => (compactFields it).2).filter
         fun tv => tv != Json.str "").toFinset.card = 1)
    ∧ ([(⟨.str "a", .str "t1"⟩ : Account)]).length
        = (([Json.obj (.cons "a" (.str "t1") .nil),
            Json.obj (.cons "b" (.str "") .nil),
            Json.obj (.cons "c" (.str "t1") .nil)].map
              fun it => (compactFields it).2).filter
            fun tv => tv != Json.str "").toFinset.card :=
  ⟨rfl, by decide,
   (claim_C2 [Json.obj (.cons "a" (.str "t1") .nil),
      Json.obj (.cons "b" (.str "") .nil),
      Json.obj (.cons "c" (.str "t1") .nil)] "" [⟨.str "a", .str "t1"⟩]).1
     rfl
     (by intro it hit
         fin_cases hit
         · exact ⟨"t1", rfl⟩
         · exact ⟨"", rfl⟩
         · exact ⟨"t1", rfl⟩)
     rfl⟩

/-- Claim C5: malformed bulk JSON, a non-array root, and an array matching
neither shape all end the process with the same exit status 1, and the
malformed-JSON diagnostic contains the parser's own message. -/
theorem claim_C5 (tok nick : String) :
    (∀ e : String,
      main ⟨some (.error e), tok, nick⟩ = .error (.malformedJson e)
      ∧ (Failure.malformedJson e).exitCode = 1
      ∧ ∃ pre : String, (Failure.malformedJson e).message = pre ++ e)
    ∧ (∀ raw : Json, (∀ itemsJL : JsonList, raw ≠ .arr itemsJL) →
      main ⟨some (.ok raw), tok, nick⟩ = .error (.badShape rootTypeErr)
      ∧ (Failure.badShape rootTypeErr).exitCode = 1)
    ∧ (∀ items : List Json,
        compactShape items = false → explicitShape items = false →
      main ⟨some (.ok (.arr (JsonList.ofList items))), tok, nick⟩
        = .error (.badShape listShapeErr)
      ∧ (Failure.badShape listShapeErr).exitCode = 1) := by
  refine ⟨fun e => ⟨?_, rfl, ⟨_, rfl⟩⟩,
    fun raw hraw => ⟨?_, rfl⟩, fun items h1 h2 => ⟨?_, rfl⟩⟩
  · exact main_err_of_load (load_err (stateAfterBoth_err rfl))
  · have hp : parseBulk raw = .error (.badShape rootTypeErr) := by
      cases raw with
      | arr l => exact absurd rfl (hraw l)
      | str s => rfl
      | num x => rfl
      | bool x => rfl
      | null => rfl
      | obj fs => rfl
    have hb : stateAfterBulk ⟨some (.ok raw), tok, nick⟩
        = .error (.badShape rootTypeErr) := by
      unfold stateAfterBulk
      dsimp only
      rw [hp]
      rfl
    exact main_err_of_load (load_err (stateAfterBoth_err hb))
  · have hp : parseBulk (.arr (JsonList.ofList items))
        = .error (.badShape listShapeErr) := by
      unfold parseBulk
      dsimp only
      rw [toList_ofList, if_neg (by simp [h1]), if_neg (by simp [h2])]
    have hb : stateAfterBulk ⟨some (.ok (.arr (JsonList.ofList items))), tok, nick⟩
        = .error (.badShape listShapeErr) := by
      unfold stateAfterBulk
      dsimp only
      rw [hp]
      rfl
    exact main_err_of_load (load_err (stateAfterBoth_err hb))

/-- Witness for C5: a parse error string, the non-array root `null`, and
the one-element array `["x"]` (neither shape). -/
theorem claim_C5_witness :
    main ⟨some (.error "Expecting value"), "", ""⟩
      = .error (.malformedJson "Expecting value")
    ∧ main ⟨some (.ok .null), "", ""⟩ = .error (.badShape rootTypeErr)
    ∧ main ⟨some (.ok (.arr (JsonList.ofList [Json.str "x"]))), "", ""⟩
        = .error (.badShape listShapeErr) :=
  ⟨((claim_C5 "" "").1 "Expecting value").1,
   ((claim_C5 "" "").2.1 .null (fun l h => Json.noConfusion h)).1,
   ((claim_C5 "" "").2.2 [Json.str "x"] rfl rfl).1⟩

/-- Claim C6: on a successful run the emitted `users` list is the merge
result stably sorted by nickname: it is pairwise ordered under the
sort-key comparison (on string nicknames, Python's code-point string
order), and for every nickname value the accounts carrying it appear in
exactly their original acceptance order (filtering by any nickname
commutes with the sort); the output is a permutation of the merge
result. -/
theorem claim_C6 (env : Env) (accs : List Account)
    (hload : load_and_merge_accounts env = .ok accs) :
    main env = .ok ⟨"info", sortAccounts accs⟩
    ∧ (sortAccounts accs).Pairwise (fun a b => nickLe a b = true)
    ∧ (sortAccounts accs).Pairwise (fun a b => ∀ x y : String,
        a.nickname = .str x → b.nickname = .str y → pyStrLe x y = true)
    ∧ (∀ j : Json, (sortAccounts accs).filter (fun x => x.nickname == j)
        = accs.filter (fun x => x.nickname == j))
    ∧ (sortAccounts accs).Perm accs := by
  refine ⟨main_of_load hload, sortAccounts_sorted accs, ?_,
    fun j => sortAccounts_filter_key j accs, sortAccounts_perm accs⟩
  refine (sortAccounts_sorted accs).imp ?_
  intro a b h x y hx hy
  unfold nickLe at h
  rw [hx, hy] at h
  exact h

/-- Witness for C6: bulk `[{"b": "t1"}, {"a": "t2"}, {"b": "t3"}]` - the
output is sorted `a, b, b` and the two accounts named `"b"` keep their
original order `t1` before `t3`. -/
theorem claim_C6_witness :
    main ⟨some (.ok (.arr (.cons (.obj (.cons "b" (.str "t1") .nil))
        (.cons (.obj (.cons "a" (.str "t2") .nil))
          (.cons (.obj (.cons "b" (.str "t3") .nil)) .nil))))), "", ""⟩
      = .ok ⟨"info", sortAccounts
          [⟨.str "b", .str "t1"⟩, ⟨.str "a", .str "t2"⟩, ⟨.str "b", .str "t3"⟩]⟩
    ∧ (sortAccounts [⟨.str "b", .str "t1"⟩, ⟨.str "a", .str "t2"⟩,
          ⟨.str "b", .str "t3"⟩]).filter
        (fun x => x.nickname == Json.str "b")
      = ([⟨.str "b", .str "t1"⟩, ⟨.str "a", .str "t2"⟩,
          ⟨.str "b", .str "t3"⟩] : List Account).filter
        (fun x => x.nickname == Json.str "b") :=
  ⟨(claim_C6 ⟨some (.ok (.arr (.cons (.obj (.cons "b" (.str "t1") .nil))
        (.cons (.obj (.cons "a" (.str "t2") .nil))
          (.cons (.obj (.cons "b" (.str "t3") .nil)) .nil))))), "", ""⟩
      [⟨.str "b", .str "t1"⟩, ⟨.str "a", .str "t2"⟩, ⟨.str "b", .str "t3"⟩]
      rfl).1,
   (claim_C6 ⟨some (.ok (.arr (.cons (.obj (.cons "b" (.str "t1") .nil))
        (.cons (.obj (.cons "a" (.str "t2") .nil))
          (.cons (.obj (.cons "b" (.str "t3") .nil)) .nil))))), "", ""⟩
      [⟨.str "b", .str "t1"⟩, ⟨.str "a", .str "t2"⟩, ⟨.str "b", .str "t3"⟩]
      rfl).2.2.2.1 (Json.str "b")⟩

/-- Claim C8: invariants of every successful run's output document: the
log level is the constant "info", every emitted account's token is truthy
(in particular not the empty string), and the tokens are pairwise
distinct across the whole merged set. -/
theorem claim_C8 (env : Env) (conf : Config) (h : main env = .ok conf) :
    conf.log_level = "info"
    ∧ (∀ a ∈ conf.users, a.token.truthy = true ∧ a.token ≠ .str "")
    ∧ (conf.users.map Account.token).Nodup := by
  obtain ⟨accs, hload, hconf⟩ := main_ok_elim h
  obtain ⟨st, hsb, hacc, -⟩ := load_ok_elim hload
  obtain ⟨hseen, hnodup, htruthy⟩ := stInv_stateAfterBoth hsb
  subst hconf
  refine ⟨rfl, ?_, ?_⟩
  · intro a ha
    have ha' : a ∈ accs := (sortAccounts_perm accs).mem_iff.mp ha
    have ha'' : a ∈ st.accounts := by rw [hacc]; exact ha'
    have hmem : a.token ∈ st.seen := by
      rw [hseen]; exact List.mem_map_of_mem _ ha''
    have ht := htruthy _ hmem
    refine ⟨ht, fun hc => ?_⟩
    rw [hc] at ht
    exact absurd ht (by decide)
  · have hperm := (sortAccounts_perm accs).map Account.token
    rw [hperm.nodup_iff, ← hacc, ← hseen]
    exact hnodup

/-- Witness for C8: the standalone pair alone. -/
theorem claim_C8_witness :
    (Config.mk "info" [⟨Json.str "n", Json.str "t"⟩]).log_level = "info"
    ∧ ((Config.mk "info" [⟨Json.str "n", Json.str "t"⟩]).users.map
        Account.token).Nodup :=
  ⟨(claim_C8 ⟨none, "t", "n"⟩ ⟨"info", [⟨.str "n", .str "t"⟩]⟩ rfl).1,
   (claim_C8 ⟨none, "t", "n"⟩ ⟨"info", [⟨.str "n", .str "t"⟩]⟩ rfl).2.2⟩

end Skland
